import Mathlib

/-!
Verification of the binary telemetry codec and socket wrappers of the
`packaged-common` repository, shallowly embedded in Lean.

Bytes are modelled as natural numbers below 256, byte strings as `List Nat`.
Python floats are modelled by their IEEE-754 bit patterns (naturals below
2^64): `struct.pack "=d"` stores exactly those 64 bits, so round-trip
claims about bit-identity become statements about byte serialization.
Python exceptions that escape a function are modelled with `Except`.
-/

/-- The standard base64 alphabet of CPython's `binascii`, as a function from
a 6-bit value to the ASCII code of its digit. -/
def b64alphabet (v : Nat) : Nat :=
  if v < 26 then 65 + v
  else if v < 52 then 71 + v
  else if v < 62 then v - 4
  else if v = 62 then 43
  else 47

/-- Partial inverse of the base64 alphabet: `some` of the 6-bit value for an
alphabet character, `none` for every other byte (CPython skips those). -/
def b64rev (c : Nat) : Option Nat :=
  if 65 ≤ c ∧ c ≤ 90 then some (c - 65)
  else if 97 ≤ c ∧ c ≤ 122 then some (c - 71)
  else if 48 ≤ c ∧ c ≤ 57 then some (c + 4)
  else if c = 43 then some 62
  else if c = 47 then some 63
  else none

/-- The two failure modes of CPython's legacy `binascii.a2b_base64`: an
input whose count of data characters is 1 more than a multiple of 4, and an
incomplete final quantum (missing padding). Both raise `binascii.Error`. -/
inductive B64Error where
  | invalidLength
  | incorrectPadding
deriving DecidableEq

/-- `base64.b64encode`: bytes to base64 characters, three input bytes per
four output characters, `=`-padded (ASCII 61) final quantum. -/
def b64encodeBytes : List Nat → List Nat
  | [] => []
  | [a] => [b64alphabet (a / 4), b64alphabet (a % 4 * 16), 61, 61]
  | [a, b] => [b64alphabet (a / 4), b64alphabet (a % 4 * 16 + b / 16),
               b64alphabet (b % 16 * 4), 61]
  | a :: b :: c :: rest =>
      b64alphabet (a / 4) :: b64alphabet (a % 4 * 16 + b / 16) ::
      b64alphabet (b % 16 * 4 + c / 64) :: b64alphabet (c % 64) ::
      b64encodeBytes rest

/-- The state machine of CPython's `binascii.a2b_base64` in non-strict mode:
characters outside the alphabet are skipped, `=` finishes the decode once a
quantum of at least two characters is padded to four, and an incomplete
final quantum is an error. `quadPos` counts characters within the current
quantum, `leftchar` holds the pending bits, `pads` counts pad characters,
`acc` accumulates output bytes in reverse. -/
def a2bLoop : Nat → Nat → Nat → List Nat → List Nat → Except B64Error (List Nat)
  | quadPos, _, _, acc, [] =>
    if quadPos = 0 then .ok acc.reverse
    else if quadPos = 1 then .error .invalidLength
    else .error .incorrectPadding
  | quadPos, leftchar, pads, acc, ch :: rest =>
    if ch = 61 then
      if 2 ≤ quadPos then
        if 4 ≤ quadPos + (pads + 1) then .ok acc.reverse
        else a2bLoop quadPos leftchar (pads + 1) acc rest
      else a2bLoop quadPos leftchar pads acc rest
    else
      match b64rev ch with
      | none => a2bLoop quadPos leftchar pads acc rest
      | some v =>
        match quadPos with
        | 0 => a2bLoop 1 v 0 acc rest
        | 1 => a2bLoop 2 (v % 16) 0 ((leftchar * 4 + v / 16) :: acc) rest
        | 2 => a2bLoop 3 (v % 4) 0 ((leftchar * 16 + v / 4) :: acc) rest
        | _ => a2bLoop 0 0 0 ((leftchar * 64 + v) :: acc) rest

/-- `base64.b64decode` with default arguments: run the `a2b_base64` state
machine from the initial state. An `Except.error` models a raised
`binascii.Error`. -/
def b64decodeBytes (input : List Nat) : Except B64Error (List Nat) :=
  a2bLoop 0 0 0 [] input

theorem b64rev_alphabet : ∀ v < 64, b64rev (b64alphabet v) = some v ∧ b64alphabet v ≠ 61 := by
  decide

theorem a2bLoop_cons_valid (quadPos leftchar pads : Nat) (acc rest : List Nat)
    (v : Nat) (hv : v < 64) :
    a2bLoop quadPos leftchar pads acc (b64alphabet v :: rest) =
      match quadPos with
      | 0 => a2bLoop 1 v 0 acc rest
      | 1 => a2bLoop 2 (v % 16) 0 ((leftchar * 4 + v / 16) :: acc) rest
      | 2 => a2bLoop 3 (v % 4) 0 ((leftchar * 16 + v / 4) :: acc) rest
      | _ => a2bLoop 0 0 0 ((leftchar * 64 + v) :: acc) rest := by
  obtain ⟨hrev, hne⟩ := b64rev_alphabet v hv
  rw [a2bLoop, if_neg hne, hrev]

theorem a2bLoop_step0 (lc pads : Nat) (acc rest : List Nat) (v : Nat) (hv : v < 64) :
    a2bLoop 0 lc pads acc (b64alphabet v :: rest) = a2bLoop 1 v 0 acc rest :=
  a2bLoop_cons_valid 0 lc pads acc rest v hv

theorem a2bLoop_step1 (lc pads : Nat) (acc rest : List Nat) (v : Nat) (hv : v < 64) :
    a2bLoop 1 lc pads acc (b64alphabet v :: rest) =
      a2bLoop 2 (v % 16) 0 ((lc * 4 + v / 16) :: acc) rest :=
  a2bLoop_cons_valid 1 lc pads acc rest v hv

theorem a2bLoop_step2 (lc pads : Nat) (acc rest : List Nat) (v : Nat) (hv : v < 64) :
    a2bLoop 2 lc pads acc (b64alphabet v :: rest) =
      a2bLoop 3 (v % 4) 0 ((lc * 16 + v / 4) :: acc) rest :=
  a2bLoop_cons_valid 2 lc pads acc rest v hv

theorem a2bLoop_step3 (lc pads : Nat) (acc rest : List Nat) (v : Nat) (hv : v < 64) :
    a2bLoop 3 lc pads acc (b64alphabet v :: rest) =
      a2bLoop 0 0 0 ((lc * 64 + v) :: acc) rest :=
  a2bLoop_cons_valid 3 lc pads acc rest v hv

theorem a2bLoop_encodeAux :
    ∀ l : List Nat, (∀ x ∈ l, x < 256) → ∀ acc : List Nat,
      a2bLoop 0 0 0 acc (b64encodeBytes l) = .ok (acc.reverse ++ l)
  | [], _, acc => by
    simp [b64encodeBytes, a2bLoop]
  | [a], h, acc => by
    have ha : a < 256 := h a (by simp)
    have h1 : a / 4 < 64 := by omega
    have h2 : a % 4 * 16 < 64 := by omega
    simp only [b64encodeBytes]
    rw [a2bLoop_step0 _ _ _ _ _ h1, a2bLoop_step1 _ _ _ _ _ h2]
    have eX1 : a / 4 * 4 + a % 4 * 16 / 16 = a := by omega
    have eL2 : a % 4 * 16 % 16 = 0 := by omega
    rw [eX1, eL2]
    simp [a2bLoop]
  | [a, b], h, acc => by
    have ha : a < 256 := h a (by simp)
    have hb : b < 256 := h b (by simp)
    have h1 : a / 4 < 64 := by omega
    have h2 : a % 4 * 16 + b / 16 < 64 := by omega
    have h3 : b % 16 * 4 < 64 := by omega
    simp only [b64encodeBytes]
    rw [a2bLoop_step0 _ _ _ _ _ h1, a2bLoop_step1 _ _ _ _ _ h2, a2bLoop_step2 _ _ _ _ _ h3]
    have eX1 : a / 4 * 4 + (a % 4 * 16 + b / 16) / 16 = a := by omega
    have eX2 : (a % 4 * 16 + b / 16) % 16 * 16 + b % 16 * 4 / 4 = b := by omega
    have eL3 : b % 16 * 4 % 4 = 0 := by omega
    rw [eX1, eX2, eL3]
    simp [a2bLoop]
  | a :: b :: c :: rest, h, acc => by
    have ha : a < 256 := h a (by simp)
    have hb : b < 256 := h b (by simp)
    have hc : c < 256 := h c (by simp)
    have h1 : a / 4 < 64 := by omega
    have h2 : a % 4 * 16 + b / 16 < 64 := by omega
    have h3 : b % 16 * 4 + c / 64 < 64 := by omega
    have h4 : c % 64 < 64 := by omega
    simp only [b64encodeBytes]
    rw [a2bLoop_step0 _ _ _ _ _ h1, a2bLoop_step1 _ _ _ _ _ h2, a2bLoop_step2 _ _ _ _ _ h3,
      a2bLoop_step3 _ _ _ _ _ h4]
    have eX1 : a / 4 * 4 + (a % 4 * 16 + b / 16) / 16 = a := by omega
    have eX2 : (a % 4 * 16 + b / 16) % 16 * 16 + (b % 16 * 4 + c / 64) / 4 = b := by omega
    have eX3 : (b % 16 * 4 + c / 64) % 4 * 64 + c % 64 = c := by omega
    rw [eX1, eX2, eX3]
    rw [a2bLoop_encodeAux rest (fun x hx => h x (by simp [hx])) ((c :: b :: a :: acc))]
    simp

theorem b64_roundTrip (l : List Nat) (h : ∀ x ∈ l, x < 256) :
    b64decodeBytes (b64encodeBytes l) = .ok l := by
  have := a2bLoop_encodeAux l h []
  simpa [b64decodeBytes] using this

/-- `struct.pack "=d"`: the 64-bit pattern of a double stored as 8 bytes in
native (little-endian) order. -/
def packU64le (n : Nat) : List Nat :=
  [n % 256, n / 256 % 256, n / 65536 % 256, n / 16777216 % 256,
   n / 4294967296 % 256, n / 1099511627776 % 256,
   n / 281474976710656 % 256, n / 72057594037927936 % 256]

/-- `struct.unpack "=d"` on 8 bytes: reassemble the 64-bit pattern. -/
def unpackU64le : List Nat → Nat
  | [b0, b1, b2, b3, b4, b5, b6, b7] =>
      b0 + b1 * 256 + b2 * 65536 + b3 * 16777216 + b4 * 4294967296 +
      b5 * 1099511627776 + b6 * 281474976710656 + b7 * 72057594037927936
  | _ => 0

/-- `struct.pack "=i"` of a signed 32-bit value: two's complement bytes in
little-endian order (`count` is in range, reduced modulo 2^32). -/
def packI32le (count : Int) : List Nat :=
  let n := (count % 4294967296).toNat
  [n % 256, n / 256 % 256, n / 65536 % 256, n / 16777216 % 256]

/-- `struct.unpack "=i"` on 4 bytes: reassemble the 32-bit pattern and
interpret it as a two's-complement signed value. -/
def unpackI32le : List Nat → Int
  | [b0, b1, b2, b3] =>
      let n := b0 + b1 * 256 + b2 * 65536 + b3 * 16777216
      if n < 2147483648 then (n : Int) else (n : Int) - 4294967296
  | _ => 0

theorem unpackU64le_packU64le (n : Nat) (hn : n < 18446744073709551616) :
    unpackU64le (packU64le n) = n := by
  simp only [packU64le, unpackU64le]
  omega

theorem packU64le_mem_lt (n : Nat) : ∀ x ∈ packU64le n, x < 256 := by
  intro x hx
  simp only [packU64le, List.mem_cons, List.not_mem_nil, or_false] at hx
  rcases hx with rfl | rfl | rfl | rfl | rfl | rfl | rfl | rfl <;> omega

theorem packI32le_mem_lt (count : Int) : ∀ x ∈ packI32le count, x < 256 := by
  intro x hx
  simp only [packI32le, List.mem_cons, List.not_mem_nil, or_false] at hx
  rcases hx with rfl | rfl | rfl | rfl <;> omega

theorem unpackI32le_packI32le (count : Int)
    (h1 : -2147483648 ≤ count) (h2 : count < 2147483648) :
    unpackI32le (packI32le count) = count := by
  simp only [packI32le, unpackI32le]
  omega

/-- The `WorkerEnum` class of `modules/data_encoding/worker_enum.py`: seven
registered worker tags. -/
inductive WorkerEnum where
  | CLUSTER_ESTIMATION_WORKER
  | COMMUNICATIONS_WORKER
  | DATA_MERGE_WORKER
  | DETECT_TARGET_WORKER
  | FLIGHT_INTERFACE_WORKER
  | GEOLOCATION_WORKER
  | VIDEO_INPUT_WORKER
deriving DecidableEq

/-- `.value` of a `WorkerEnum` member. -/
def WorkerEnum.value : WorkerEnum → Nat
  | .CLUSTER_ESTIMATION_WORKER => 1
  | .COMMUNICATIONS_WORKER => 2
  | .DATA_MERGE_WORKER => 3
  | .DETECT_TARGET_WORKER => 4
  | .FLIGHT_INTERFACE_WORKER => 5
  | .GEOLOCATION_WORKER => 6
  | .VIDEO_INPUT_WORKER => 7

/-- The enum constructor call `WorkerEnum(n)`: `some` member when `n` is a
registered value, `none` when the call would raise `ValueError`. -/
def WorkerEnum.fromValue (n : Nat) : Option WorkerEnum :=
  if n = 1 then some .CLUSTER_ESTIMATION_WORKER
  else if n = 2 then some .COMMUNICATIONS_WORKER
  else if n = 3 then some .DATA_MERGE_WORKER
  else if n = 4 then some .DETECT_TARGET_WORKER
  else if n = 5 then some .FLIGHT_INTERFACE_WORKER
  else if n = 6 then some .GEOLOCATION_WORKER
  else if n = 7 then some .VIDEO_INPUT_WORKER
  else none

theorem WorkerEnum.fromValue_value (w : WorkerEnum) : WorkerEnum.fromValue w.value = some w := by
  cases w <;> rfl

theorem WorkerEnum.value_lt (w : WorkerEnum) : w.value < 256 := by
  cases w <;> simp [WorkerEnum.value]

/-- The argument actually passed as `worker_id`: either a `WorkerEnum`
member, or some other object such as a plain integer, which fails the
`isinstance(worker_id, worker_enum.WorkerEnum)` check. -/
inductive PyWorkerId where
  | enum (w : WorkerEnum)
  | int (n : Int)
deriving DecidableEq

/-- `PositionGlobal` of `modules/position_global.py`, fields as IEEE-754
bit patterns. -/
structure PositionGlobal where
  latitude : Nat
  longitude : Nat
  altitude : Nat
deriving DecidableEq

/-- `PositionGlobal.create`: always succeeds, performing no validation of
the coordinate values. -/
def PositionGlobal.create (latitude longitude altitude : Nat) : Bool × PositionGlobal :=
  (true, ⟨latitude, longitude, altitude⟩)

/-- Exceptions that can escape the decode functions: `binascii.Error` from
`base64.b64decode` and `ValueError` from the `WorkerEnum` constructor,
neither of which is caught by the `except struct.error` clause. -/
inductive PyExc where
  | binasciiError
  | valueError
  | notImplementedError
deriving DecidableEq

/-- A 64-bit pattern denotes a finite double when its exponent field is not
all ones (all-ones exponents are the NaNs and the infinities). -/
def isFiniteBits (n : Nat) : Prop :=
  n / 4503599627370496 % 2048 ≠ 2047

instance (n : Nat) : Decidable (isFiniteBits n) := by
  unfold isFiniteBits
  infer_instance

/-- `encode_position_global` of
`modules/data_encoding/message_encoding_decoding.py`: reject a `worker_id`
that is not a `WorkerEnum` member, then `struct.pack "=Bddd"` (which packs
any 64-bit patterns, finite or not) and `base64.b64encode`. -/
def encode_position_global (worker_id : PyWorkerId) (global_position : PositionGlobal) :
    Bool × Option (List Nat) :=
  match worker_id with
  | .int _ => (false, none)
  | .enum w =>
      (true, some (b64encodeBytes
        (w.value :: (packU64le global_position.latitude ++
          (packU64le global_position.longitude ++ packU64le global_position.altitude)))))

/-- `decode_bytes_to_position_global` of
`modules/data_encoding/message_encoding_decoding.py`. The `try` block
catches only `struct.error`; a `binascii.Error` raised by `b64decode` and a
`ValueError` raised by `WorkerEnum(...)` propagate, modelled as
`Except.error`. A wrong unwrapped length returns `(False, None, None)`. -/
def decode_bytes_to_position_global (encoded_str : List Nat) :
    Except PyExc (Bool × Option WorkerEnum × Option PositionGlobal) :=
  match b64decodeBytes encoded_str with
  | .error _ => .error .binasciiError
  | .ok raw =>
    if raw.length = 25 then
      let latitude := unpackU64le ((raw.drop 1).take 8)
      let longitude := unpackU64le ((raw.drop 9).take 8)
      let altitude := unpackU64le ((raw.drop 17).take 8)
      match WorkerEnum.fromValue (raw.headD 0) with
      | none => .error .valueError
      | some w =>
        let sp := PositionGlobal.create latitude longitude altitude
        .ok (sp.1, some w, some sp.2)
    else .ok (false, none, none)

/-- `encode_metadata` of
`modules/data_encoding/metadata_encoding_decoding.py`: reject a non-member
`worker_id`; `struct.pack "=Bi"` raises `struct.error` (caught, returning
`(False, None)`) when the count is outside the signed 32-bit range. -/
def encode_metadata (worker_id : PyWorkerId) (number_of_messages : Int) :
    Bool × Option (List Nat) :=
  match worker_id with
  | .int _ => (false, none)
  | .enum w =>
      if number_of_messages < -2147483648 ∨ 2147483648 ≤ number_of_messages then (false, none)
      else (true, some (b64encodeBytes (w.value :: packI32le number_of_messages)))

/-- `decode_metadata` of
`modules/data_encoding/metadata_encoding_decoding.py`, with the same
exception behaviour as the position decode and the 5-byte length check. -/
def decode_metadata (encoded_str : List Nat) :
    Except PyExc (Bool × Option WorkerEnum × Option Int) :=
  match b64decodeBytes encoded_str with
  | .error _ => .error .binasciiError
  | .ok raw =>
    if raw.length = 5 then
      let number_of_messages := unpackI32le ((raw.drop 1).take 4)
      match WorkerEnum.fromValue (raw.headD 0) with
      | none => .error .valueError
      | some w => .ok (true, some w, some number_of_messages)
    else .ok (false, none, none)

theorem decode_position_of_ok {enc raw : List Nat} (h : b64decodeBytes enc = .ok raw) :
    decode_bytes_to_position_global enc =
      if raw.length = 25 then
        match WorkerEnum.fromValue (raw.headD 0) with
        | none => .error .valueError
        | some w =>
            .ok (true, some w, some ⟨unpackU64le ((raw.drop 1).take 8),
              unpackU64le ((raw.drop 9).take 8), unpackU64le ((raw.drop 17).take 8)⟩)
      else .ok (false, none, none) := by
  unfold decode_bytes_to_position_global
  rw [h]
  rfl

theorem decode_metadata_of_ok {enc raw : List Nat} (h : b64decodeBytes enc = .ok raw) :
    decode_metadata enc =
      if raw.length = 5 then
        match WorkerEnum.fromValue (raw.headD 0) with
        | none => .error .valueError
        | some w => .ok (true, some w, some (unpackI32le ((raw.drop 1).take 4)))
      else .ok (false, none, none) := by
  unfold decode_metadata
  rw [h]

theorem packedPosition_mem_lt (w : WorkerEnum) (lat lon alt : Nat) :
    ∀ x ∈ w.value :: (packU64le lat ++ (packU64le lon ++ packU64le alt)), x < 256 := by
  intro x hx
  simp only [List.mem_cons, List.mem_append] at hx
  rcases hx with rfl | hx | hx | hx
  · exact WorkerEnum.value_lt w
  · exact packU64le_mem_lt lat x hx
  · exact packU64le_mem_lt lon x hx
  · exact packU64le_mem_lt alt x hx

/-- C1: for every registered WorkerTag and every position whose latitude,
longitude and altitude are finite IEEE-754 doubles (any 64-bit patterns
with a non-all-ones exponent, including negative, zero and subnormal
values), decoding the buffer produced by a successful
`encode_position_global` succeeds and returns the same tag and
bit-identical latitude, longitude and altitude. -/
theorem position_roundtrip_c1 (w : WorkerEnum) (lat lon alt : Nat)
    (hlat : lat < 18446744073709551616) (hlon : lon < 18446744073709551616)
    (halt : alt < 18446744073709551616)
    (hflat : isFiniteBits lat) (hflon : isFiniteBits lon) (hfalt : isFiniteBits alt) :
    ∃ buf, encode_position_global (.enum w) ⟨lat, lon, alt⟩ = (true, some buf) ∧
      decode_bytes_to_position_global buf = .ok (true, some w, some ⟨lat, lon, alt⟩) := by
  refine ⟨_, rfl, ?_⟩
  have hdec : b64decodeBytes (b64encodeBytes
      (w.value :: (packU64le lat ++ (packU64le lon ++ packU64le alt)))) =
      .ok (w.value :: (packU64le lat ++ (packU64le lon ++ packU64le alt))) :=
    b64_roundTrip _ (packedPosition_mem_lt w lat lon alt)
  rw [decode_position_of_ok hdec]
  have hlen : (w.value :: (packU64le lat ++ (packU64le lon ++ packU64le alt))).length = 25 := by
    simp [packU64le]
  rw [if_pos hlen]
  have e1 : ((w.value :: (packU64le lat ++ (packU64le lon ++ packU64le alt))).drop 1).take 8 =
      packU64le lat := by
    simp [packU64le]
  have e2 : ((w.value :: (packU64le lat ++ (packU64le lon ++ packU64le alt))).drop 9).take 8 =
      packU64le lon := by
    simp [packU64le]
  have e3 : ((w.value :: (packU64le lat ++ (packU64le lon ++ packU64le alt))).drop 17).take 8 =
      packU64le alt := by
    simp [packU64le]
  simp only [List.headD_cons, WorkerEnum.fromValue_value, e1, e2, e3,
    unpackU64le_packU64le lat hlat, unpackU64le_packU64le lon hlon,
    unpackU64le_packU64le alt halt]

theorem position_roundtrip_c1_witness :
    ∃ buf, encode_position_global (.enum .COMMUNICATIONS_WORKER)
        ⟨4607182418800017408, 1, 9223372036854775808⟩ = (true, some buf) ∧
      decode_bytes_to_position_global buf =
        .ok (true, some .COMMUNICATIONS_WORKER, some ⟨4607182418800017408, 1, 9223372036854775808⟩) :=
  position_roundtrip_c1 .COMMUNICATIONS_WORKER 4607182418800017408 1 9223372036854775808
    (by decide) (by decide) (by decide) (by decide) (by decide) (by decide)

/-- C2 (divergence witness): on the byte string `b"A"`, whose single data
character is 1 more than a multiple of 4, `base64.b64decode` raises
`binascii.Error`; the `except struct.error` clause of both decoders does
not catch it, so the exception propagates instead of a `(False, None, None)`
outcome. -/
theorem decode_raises_on_malformed_c2 :
    decode_bytes_to_position_global [65] = .error .binasciiError ∧
      decode_metadata [65] = .error .binasciiError :=
  ⟨rfl, rfl⟩

/-- C3 (partial divergence witness): encoding with a plain integer worker
id fails with the `(False, None)` outcome as claimed, for both codecs; but
decoding a well-armored buffer of correct raw length whose first byte is 8
(outside 1..7) raises `ValueError` from `WorkerEnum(...)`, which the
`except struct.error` clause does not catch, instead of returning the
claimed failure outcome. -/
theorem invalid_tag_behavior_c3 :
    encode_position_global (.int 9) ⟨0, 0, 0⟩ = (false, none) ∧
      encode_metadata (.int 9) 0 = (false, none) ∧
      decode_bytes_to_position_global (b64encodeBytes (8 :: List.replicate 24 0)) =
        .error .valueError ∧
      decode_metadata (b64encodeBytes (8 :: List.replicate 4 0)) = .error .valueError :=
  ⟨rfl, rfl, rfl, rfl⟩

/-- C4 (counterexample): the quiet-NaN bit pattern 0x7FF8000000000000 is
not finite, yet `encode_position_global` succeeds on it: `struct.pack "=d"`
packs any bit pattern and the code performs no finiteness check, so the
claimed `EncodeError` failure does not occur. -/
theorem encode_nonfinite_c4_counterexample :
    ¬ isFiniteBits 9221120237041090560 ∧
      (encode_position_global (.enum .CLUSTER_ESTIMATION_WORKER)
        ⟨9221120237041090560, 0, 0⟩).1 = true :=
  ⟨by decide, rfl⟩

/-- C4 (amended): for every registered tag and every position, including
positions whose fields are NaN or infinity bit patterns,
`encode_position_global` succeeds and returns the armored buffer of the
packed bit patterns; non-finite doubles are not rejected. -/
theorem encode_nonfinite_c4 (w : WorkerEnum) (p : PositionGlobal)
    (h : ¬ isFiniteBits p.latitude ∨ ¬ isFiniteBits p.longitude ∨ ¬ isFiniteBits p.altitude) :
    encode_position_global (.enum w) p =
      (true, some (b64encodeBytes (w.value :: (packU64le p.latitude ++
        (packU64le p.longitude ++ packU64le p.altitude))))) :=
  rfl

theorem encode_nonfinite_c4_witness :
    encode_position_global (.enum .DATA_MERGE_WORKER) ⟨9218868437227405312, 0, 0⟩ =
      (true, some (b64encodeBytes (WorkerEnum.DATA_MERGE_WORKER.value ::
        (packU64le 9218868437227405312 ++ (packU64le 0 ++ packU64le 0))))) :=
  encode_nonfinite_c4 .DATA_MERGE_WORKER ⟨9218868437227405312, 0, 0⟩ (Or.inl (by decide))

/-- C8: decoding a well-armored buffer (one `base64.b64decode` accepts)
whose unwrapped raw byte count is anything other than 25 for the position
codec, or 5 for the metadata codec, returns the `(False, None, None)`
length-mismatch failure outcome. -/
theorem decode_length_mismatch_c8 (enc raw : List Nat) (h : b64decodeBytes enc = .ok raw) :
    (raw.length ≠ 25 → decode_bytes_to_position_global enc = .ok (false, none, none)) ∧
      (raw.length ≠ 5 → decode_metadata enc = .ok (false, none, none)) := by
  constructor
  · intro hne
    rw [decode_position_of_ok h, if_neg hne]
  · intro hne
    rw [decode_metadata_of_ok h, if_neg hne]

theorem decode_length_mismatch_c8_witness :
    decode_bytes_to_position_global (b64encodeBytes [1, 2, 3]) = .ok (false, none, none) ∧
      decode_metadata (b64encodeBytes [1, 2, 3]) = .ok (false, none, none) :=
  ⟨(decode_length_mismatch_c8 (b64encodeBytes [1, 2, 3]) [1, 2, 3] rfl).1 (by decide),
   (decode_length_mismatch_c8 (b64encodeBytes [1, 2, 3]) [1, 2, 3] rfl).2 (by decide)⟩

/-- Observable transport effects of the UDP wrapper: a `sendto` call with
its chunk and destination, and a `time.sleep` with the delay value. -/
inductive UdpEffect where
  | sendCall (chunk : List Nat) (host : String) (port : Nat)
  | sleepCall (delay : Nat)
deriving DecidableEq

/-- The effective end index of the Python slice `l[s : e]` over a list of
length `n`: a negative end counts from the end of the list, and the result
is clamped to at most `n`. -/
def pySliceEnd (n e : Int) : Int :=
  if e < 0 then (if n < n + e then n else n + e) else (if n < e then n else e)

/-- The Python slice `l[s : e]` for a non-negative start `s` and an
arbitrary (possibly negative) end `e`: empty when the effective end does
not exceed the start. -/
def pySlice (l : List Nat) (s : Nat) (e : Int) : List Nat :=
  if pySliceEnd (l.length : Int) e ≤ (s : Int) then []
  else (l.take (pySliceEnd (l.length : Int) e).toNat).drop s

/-- The chunk computed by one iteration of `UdpSocket.send_to`:
`data[data_sent:data_size]` when `data_sent + chunk_size > data_size`,
otherwise `data[data_sent : data_sent + chunk_size]`. -/
def sendChunk (data : List Nat) (dataSent : Nat) (chunkSize : Int) : List Nat :=
  if (data.length : Int) < (dataSent : Int) + chunkSize then
    pySlice data dataSent (data.length : Int)
  else
    pySlice data dataSent ((dataSent : Int) + chunkSize)

/-- The `while data_sent < data_size` loop of `UdpSocket.send_to` of
`modules/network/udp/socket_wrapper.py`, with explicit fuel (`none` means
the loop is still running when the fuel runs out). `outcomes k` is whether
the k-th `sendto` call succeeds; effects are accumulated in reverse. -/
def sendToLoop (outcomes : Nat → Bool) (data : List Nat) (host : String) (port : Nat)
    (chunkSize : Int) (sendDelay : Nat) :
    Nat → Nat → Nat → List UdpEffect → Option (Bool × List UdpEffect)
  | 0, _, _, _ => none
  | fuel + 1, dataSent, callIdx, trace =>
    if data.length ≤ dataSent then some (true, trace.reverse)
    else
      if outcomes callIdx then
        sendToLoop outcomes data host port chunkSize sendDelay fuel
          (dataSent + (sendChunk data dataSent chunkSize).length) (callIdx + 1)
          (UdpEffect.sleepCall sendDelay ::
            UdpEffect.sendCall (sendChunk data dataSent chunkSize) host port :: trace)
      else some (false,
        (UdpEffect.sendCall (sendChunk data dataSent chunkSize) host port :: trace).reverse)

/-- `UdpSocket.send_to`: run the send loop from the initial state. -/
def send_to (outcomes : Nat → Bool) (data : List Nat) (host : String) (port : Nat)
    (chunkSize : Int) (sendDelay : Nat) (fuel : Nat) : Option (Bool × List UdpEffect) :=
  sendToLoop outcomes data host port chunkSize sendDelay fuel 0 0 []

/-- Split a byte string into sequential chunks of `c` bytes (at least one
byte per chunk, so the split terminates for every `c`). -/
def chunksOf (c : Nat) : List Nat → List (List Nat)
  | [] => []
  | a :: rest => ((a :: rest).take (max 1 c)) :: chunksOf c ((a :: rest).drop (max 1 c))
termination_by l => l.length
decreasing_by
  simp only [List.length_drop, List.length_cons]
  have h := Nat.le_max_left 1 c
  omega

/-- Modelled from the spec, for the refinement statement of the chunked
send: pass each chunk in order as one datagram to `(host, port)`, sleep
`delay` after each successful send, stop immediately on the first failed
send, succeed when every send succeeded. -/
def sendChunksSpec (outcomes : Nat → Bool) (host : String) (port : Nat) (delay : Nat) :
    Nat → List (List Nat) → Bool × List UdpEffect
  | _, [] => (true, [])
  | k, ch :: rest =>
    if outcomes k then
      ((sendChunksSpec outcomes host port delay (k + 1) rest).1,
        UdpEffect.sendCall ch host port :: UdpEffect.sleepCall delay ::
          (sendChunksSpec outcomes host port delay (k + 1) rest).2)
    else (false, [UdpEffect.sendCall ch host port])

/-- One result of the underlying `socket.recvfrom` call: a datagram with
its payload and source address, or a raised `socket.error`. -/
inductive UdpRecvEvent where
  | datagram (payload : List Nat) (src : Nat)
  | sockError
deriving DecidableEq

/-- The `while data_size < buf_size` loop of `UdpSocket.recv` of
`modules/network/udp/socket_wrapper.py`. `recvfrom(buf_size)` truncates
each datagram to `buf_size` bytes; the first datagram's address is
recorded, and a later datagram from a different address has its payload
replaced by the empty string. `none` models blocking forever on an
exhausted event list. -/
def udpRecvLoop (bufSize : Nat) :
    List Nat → Option Nat → List UdpRecvEvent → Option (Bool × Option (List Nat))
  | data, _, [] => if bufSize ≤ data.length then some (true, some data) else none
  | data, addr, ev :: rest =>
    if bufSize ≤ data.length then some (true, some data)
    else
      match ev with
      | .sockError => some (false, none)
      | .datagram payload src =>
        match addr with
        | none => udpRecvLoop bufSize (data ++ payload.take bufSize) (some src) rest
        | some a =>
          if a = src then udpRecvLoop bufSize (data ++ payload.take bufSize) (some a) rest
          else udpRecvLoop bufSize data (some a) rest

/-- `UdpSocket.recv`: run the receive loop from the empty accumulator with
no recorded address. -/
def udpRecv (bufSize : Nat) (events : List UdpRecvEvent) : Option (Bool × Option (List Nat)) :=
  udpRecvLoop bufSize [] none events

/-- The `while bytes_recd < buf_size` loop of `TcpSocket.recv` of
`modules/network/tcp/socket_wrapper.py`. The stream holds `incoming` bytes
followed by a peer close; the k-th `socket.recv(request)` call returns the
next `min request (sched_k + 1)` available bytes (a blocking stream read
returns at least one byte while data remains, and the empty string exactly
when the peer has closed). `none` models blocking on an exhausted
schedule. -/
def tcpRecvLoop (bufSize : Nat) :
    List Nat → List Nat → List Nat → Option (Bool × Option (List Nat))
  | message, _, [] => if bufSize ≤ message.length then some (true, some message) else none
  | message, incoming, s :: sched =>
    if bufSize ≤ message.length then some (true, some message)
    else
      if incoming.take (min (min (bufSize - message.length) 4096) (s + 1)) = [] then
        some (false, none)
      else
        tcpRecvLoop bufSize
          (message ++ incoming.take (min (min (bufSize - message.length) 4096) (s + 1)))
          (incoming.drop (min (min (bufSize - message.length) 4096) (s + 1))) sched

/-- `TcpSocket.recv`: run the receive loop from the empty accumulator. -/
def tcpRecv (bufSize : Nat) (incoming : List Nat) (sched : List Nat) :
    Option (Bool × Option (List Nat)) :=
  tcpRecvLoop bufSize [] incoming sched

/-- `UdpClientSocket.recv` of `modules/network/udp/client_socket.py`: the
body immediately raises `NotImplementedError`, so the result is a
propagated exception and the effect trace is empty (no network receive is
performed). -/
def udpClientRecv (bufSize : Nat) : Except PyExc (Bool × Option (List Nat)) × List UdpEffect :=
  (Except.error PyExc.notImplementedError, [])

theorem udpRecvLoop_full (bufSize : Nat) (data : List Nat) (addr : Option Nat)
    (events : List UdpRecvEvent) (hb : bufSize ≤ data.length) :
    udpRecvLoop bufSize data addr events = some (true, some data) := by
  cases events with
  | nil => rw [udpRecvLoop.eq_1, if_pos hb]
  | cons ev rest =>
    cases ev with
    | sockError => rw [udpRecvLoop.eq_2, if_pos hb]
    | datagram payload src =>
      cases addr with
      | none => rw [udpRecvLoop.eq_3, if_pos hb]
      | some a => rw [udpRecvLoop.eq_4, if_pos hb]

theorem udpRecvLoop_success_le (bufSize : Nat) :
    ∀ (events : List UdpRecvEvent) (data : List Nat) (addr : Option Nat) (d : List Nat),
      udpRecvLoop bufSize data addr events = some (true, some d) → bufSize ≤ d.length := by
  intro events
  induction events with
  | nil =>
    intro data addr d h
    by_cases hb : bufSize ≤ data.length
    · rw [udpRecvLoop.eq_1, if_pos hb] at h
      simp only [Option.some.injEq, Prod.mk.injEq, true_and] at h
      obtain ⟨-, rfl⟩ := h
      exact hb
    · rw [udpRecvLoop.eq_1, if_neg hb] at h
      exact absurd h (by simp)
  | cons ev rest ih =>
    intro data addr d h
    by_cases hb : bufSize ≤ data.length
    · rw [udpRecvLoop_full bufSize data addr (ev :: rest) hb] at h
      simp only [Option.some.injEq, Prod.mk.injEq, true_and] at h
      obtain ⟨-, rfl⟩ := h
      exact hb
    · cases ev with
      | sockError =>
        rw [udpRecvLoop.eq_2, if_neg hb] at h
        simp at h
      | datagram payload src =>
        cases addr with
        | none =>
          rw [udpRecvLoop.eq_3, if_neg hb] at h
          exact ih _ _ _ h
        | some a =>
          rw [udpRecvLoop.eq_4, if_neg hb] at h
          by_cases ha : a = src
          · rw [if_pos ha] at h
            exact ih _ _ _ h
          · rw [if_neg ha] at h
            exact ih _ _ _ h

theorem udpRecvLoop_drop_other (bufSize : Nat) (data : List Nat) (a : Nat)
    (payload : List Nat) (src : Nat) (rest : List UdpRecvEvent) (h : src ≠ a) :
    udpRecvLoop bufSize data (some a) (.datagram payload src :: rest) =
      udpRecvLoop bufSize data (some a) rest := by
  by_cases hb : bufSize ≤ data.length
  · rw [udpRecvLoop_full bufSize data (some a) (.datagram payload src :: rest) hb,
      udpRecvLoop_full bufSize data (some a) rest hb]
  · rw [udpRecvLoop.eq_4, if_neg hb, if_neg (fun hh => h hh.symm)]

/-- C5 (counterexample): receiving with `expected_size = 10` while two
7-byte datagrams arrive from the same source succeeds with 14 bytes: the
loop exits as soon as the running total reaches or exceeds the target, so
the returned data is not of length exactly `expected_size`. -/
theorem udp_recv_exact_c5_counterexample :
    udpRecv 10 [.datagram (List.replicate 7 3) 1, .datagram (List.replicate 7 4) 1] =
      some (true, some (List.replicate 7 3 ++ List.replicate 7 4)) ∧
      (List.replicate 7 3 ++ List.replicate 7 4).length ≠ 10 := by
  constructor
  · rfl
  · decide

/-- C5 (amended): when `UdpSocket.recv(expected_size)` returns success the
returned data has length at least `expected_size` (a final same-source
datagram may overshoot the target, so more than `expected_size` bytes can
be returned), and a datagram arriving from an address different from the
recorded first sender contributes nothing to the accumulated data or its
running total. -/
theorem udp_recv_c5 :
    (∀ (bufSize : Nat) (events : List UdpRecvEvent) (d : List Nat),
      udpRecv bufSize events = some (true, some d) → bufSize ≤ d.length) ∧
    (∀ (bufSize : Nat) (data : List Nat) (a : Nat) (payload : List Nat) (src : Nat)
      (rest : List UdpRecvEvent), src ≠ a →
      udpRecvLoop bufSize data (some a) (.datagram payload src :: rest) =
        udpRecvLoop bufSize data (some a) rest) :=
  ⟨fun bufSize events d h => udpRecvLoop_success_le bufSize events [] none d h,
   fun bufSize data a payload src rest h =>
     udpRecvLoop_drop_other bufSize data a payload src rest h⟩

theorem udp_recv_c5_witness :
    10 ≤ (List.replicate 7 3 ++ List.replicate 7 4).length ∧
      udpRecvLoop 5 [] (some 1) [.datagram [9] 2] = udpRecvLoop 5 [] (some 1) [] :=
  ⟨udp_recv_c5.1 10 [.datagram (List.replicate 7 3) 1, .datagram (List.replicate 7 4) 1]
      (List.replicate 7 3 ++ List.replicate 7 4) rfl,
   udp_recv_c5.2 5 [] 1 [9] 2 [] (by decide)⟩

theorem tcpRecvLoop_success_len (bufSize : Nat) :
    ∀ (sched message incoming d : List Nat),
      message.length ≤ bufSize →
      tcpRecvLoop bufSize message incoming sched = some (true, some d) → d.length = bufSize := by
  intro sched
  induction sched with
  | nil =>
    intro message incoming d hle h
    by_cases hb : bufSize ≤ message.length
    · rw [tcpRecvLoop.eq_1, if_pos hb] at h
      simp only [Option.some.injEq, Prod.mk.injEq, true_and] at h
      obtain ⟨-, rfl⟩ := h
      omega
    · rw [tcpRecvLoop.eq_1, if_neg hb] at h
      exact absurd h (by simp)
  | cons s sched ih =>
    intro message incoming d hle h
    by_cases hb : bufSize ≤ message.length
    · rw [tcpRecvLoop.eq_2, if_pos hb] at h
      simp only [Option.some.injEq, Prod.mk.injEq, true_and] at h
      obtain ⟨-, rfl⟩ := h
      omega
    · rw [tcpRecvLoop.eq_2, if_neg hb] at h
      by_cases ht : incoming.take (min (min (bufSize - message.length) 4096) (s + 1)) = []
      · rw [if_pos ht] at h
        simp at h
      · rw [if_neg ht] at h
        refine ih _ _ _ ?_ h
        have h1 : (incoming.take (min (min (bufSize - message.length) 4096) (s + 1))).length ≤
            min (min (bufSize - message.length) 4096) (s + 1) := by
          simp [List.length_take]
        simp only [List.length_append]
        omega

theorem tcpRecvLoop_short_closed (bufSize : Nat) :
    ∀ (sched message incoming : List Nat),
      message.length + incoming.length < bufSize →
      incoming.length + 1 ≤ sched.length →
      tcpRecvLoop bufSize message incoming sched = some (false, none) := by
  intro sched
  induction sched with
  | nil =>
    intro message incoming hshort hsched
    simp at hsched
  | cons s sched ih =>
    intro message incoming hshort hsched
    have hb : ¬ bufSize ≤ message.length := by omega
    rw [tcpRecvLoop.eq_2, if_neg hb]
    have hk : 1 ≤ min (min (bufSize - message.length) 4096) (s + 1) := by omega
    cases incoming with
    | nil =>
      rw [if_pos (by simp)]
    | cons x xs =>
      have ht : (x :: xs).take (min (min (bufSize - message.length) 4096) (s + 1)) ≠ [] := by
        intro hempty
        rw [List.take_eq_nil_iff] at hempty
        rcases hempty with h0 | h0
        · omega
        · exact absurd h0 (by simp)
      rw [if_neg ht]
      refine ih _ _ ?_ ?_
      · have h1 : ((x :: xs).take (min (min (bufSize - message.length) 4096) (s + 1))).length =
            min (min (min (bufSize - message.length) 4096) (s + 1)) (x :: xs).length := by
          simp [List.length_take]
        have h2 : ((x :: xs).drop (min (min (bufSize - message.length) 4096) (s + 1))).length =
            (x :: xs).length - min (min (bufSize - message.length) 4096) (s + 1) := by
          simp [List.length_drop]
        simp only [List.length_append, h1, h2]
        simp only [List.length_cons] at hshort ⊢
        omega
      · have h2 : ((x :: xs).drop (min (min (bufSize - message.length) 4096) (s + 1))).length =
            (x :: xs).length - min (min (bufSize - message.length) 4096) (s + 1) := by
          simp [List.length_drop]
        simp only [List.length_cons] at hsched ⊢
        simp only [List.length_cons] at h2
        omega

/-- C7: `TcpSocket.recv(buf_size)` accumulates stream reads and on success
returns exactly `buf_size` bytes (each read requests at most the remaining
byte count, so the total never overshoots); and when the peer closes after
sending fewer than `buf_size` bytes, a read returns the empty string and
the call fails immediately with the `(False, None)` connection-closed
outcome instead of a silent short buffer. -/
theorem tcp_recv_exact_c7 :
    (∀ (bufSize : Nat) (incoming sched d : List Nat),
      tcpRecv bufSize incoming sched = some (true, some d) → d.length = bufSize) ∧
    (∀ (bufSize : Nat) (incoming sched : List Nat),
      incoming.length < bufSize → incoming.length + 1 ≤ sched.length →
      tcpRecv bufSize incoming sched = some (false, none)) :=
  ⟨fun bufSize incoming sched d h =>
      tcpRecvLoop_success_len bufSize sched [] incoming d (by simp) h,
   fun bufSize incoming sched h1 h2 =>
      tcpRecvLoop_short_closed bufSize sched [] incoming (by simpa) h2⟩

theorem tcp_recv_exact_c7_witness :
    ([7, 8] : List Nat).length = 2 ∧ tcpRecv 3 [1] [4, 4] = some (false, none) :=
  ⟨tcp_recv_exact_c7.1 2 [7, 8, 9] [5] [7, 8] rfl,
   tcp_recv_exact_c7.2 3 [1] [4, 4] (by decide) (by decide)⟩

/-- C9 (counterexample): `UdpClientSocket.recv` raises
`NotImplementedError`: the result is a propagated exception, not a typed
success-flag outcome returned to the caller, contradicting the claim that
the failure is "a typed outcome rather than a raised/unwound exception". -/
theorem udp_client_recv_c9_counterexample :
    (udpClientRecv 10).1 = Except.error PyExc.notImplementedError ∧ (udpClientRecv 10).2 = [] :=
  ⟨rfl, rfl⟩

/-- C9 (amended): for every `buf_size`, `recv` on a UDP client socket
fails immediately without performing any network receive (its effect trace
is empty), and the failure is the raised `NotImplementedError` exception
propagating to the caller, not a returned typed outcome. -/
theorem udp_client_recv_c9 (bufSize : Nat) :
    udpClientRecv bufSize = (Except.error PyExc.notImplementedError, []) :=
  rfl

theorem sendChunk_eq (data : List Nat) (s : Nat) (c : Int) (hc : 1 ≤ c)
    (hs : s < data.length) :
    sendChunk data s c = (data.drop s).take (max 1 c.toNat) := by
  unfold sendChunk pySlice pySliceEnd
  by_cases hcase : (data.length : Int) < (s : Int) + c
  · rw [if_pos hcase]
    rw [if_neg (by omega : ¬ ((data.length : Int) < 0))]
    rw [if_neg (lt_irrefl (data.length : Int))]
    rw [if_neg (by omega : ¬ ((data.length : Int) ≤ (s : Int)))]
    rw [show ((data.length : Int)).toNat = data.length by omega]
    rw [List.take_length]
    have h4 : (data.drop s).length ≤ max 1 c.toNat := by
      rw [List.length_drop]
      have := Nat.le_max_right 1 c.toNat
      omega
    rw [List.take_of_length_le h4]
  · rw [if_neg hcase]
    rw [if_neg (by omega : ¬ ((s : Int) + c < 0))]
    rw [if_neg hcase]
    rw [if_neg (by omega : ¬ ((s : Int) + c ≤ (s : Int)))]
    rw [show ((s : Int) + c).toNat = s + c.toNat by omega]
    rw [List.drop_take]
    rw [show s + c.toNat - s = c.toNat by omega]
    rw [show max 1 c.toNat = c.toNat by omega]

theorem chunksOf_cons (c : Nat) (a : Nat) (rest : List Nat) :
    chunksOf c (a :: rest) =
      (a :: rest).take (max 1 c) :: chunksOf c ((a :: rest).drop (max 1 c)) := by
  rw [chunksOf]

theorem chunksOf_flatten (c : Nat) : ∀ l : List Nat, (chunksOf c l).flatten = l
  | [] => by rw [chunksOf]; rfl
  | a :: rest => by
    rw [chunksOf_cons]
    rw [List.flatten_cons]
    rw [chunksOf_flatten c ((a :: rest).drop (max 1 c))]
    exact List.take_append_drop _ _
termination_by l => l.length
decreasing_by
  simp only [List.length_drop, List.length_cons]
  have h := Nat.le_max_left 1 c
  omega

theorem chunksOf_mem (c : Nat) :
    ∀ (l ch : List Nat), ch ∈ chunksOf c l → ch ≠ [] ∧ ch.length ≤ max 1 c
  | [], ch, h => by rw [chunksOf] at h; exact absurd h (by simp)
  | a :: rest, ch, h => by
    rw [chunksOf_cons] at h
    rcases List.mem_cons.mp h with rfl | h2
    · constructor
      · intro hempty
        rw [List.take_eq_nil_iff] at hempty
        rcases hempty with h0 | h0
        · have := Nat.le_max_left 1 c
          omega
        · exact absurd h0 (by simp)
      · rw [List.length_take]
        omega
    · exact chunksOf_mem c ((a :: rest).drop (max 1 c)) ch h2
termination_by l _ _ => l.length
decreasing_by
  simp only [List.length_drop, List.length_cons]
  have h := Nat.le_max_left 1 c
  omega

theorem drop_add_take_length (l : List Nat) (s m : Nat) :
    l.drop (s + ((l.drop s).take m).length) = (l.drop s).drop m := by
  rw [List.length_take, List.length_drop, List.drop_drop]
  by_cases hm : m ≤ l.length - s
  · rw [Nat.min_eq_left hm]
  · have h1 : l.drop (s + min m (l.length - s)) = [] := List.drop_eq_nil_iff.mpr (by omega)
    have h2 : l.drop (s + m) = [] := List.drop_eq_nil_iff.mpr (by omega)
    rw [h1, h2]

theorem sendToLoop_eq_spec (outcomes : Nat → Bool) (data : List Nat) (host : String)
    (port : Nat) (c : Int) (delay : Nat) (hc : 1 ≤ c) :
    ∀ (fuel dataSent callIdx : Nat) (trace : List UdpEffect),
      dataSent ≤ data.length → data.length - dataSent < fuel →
      sendToLoop outcomes data host port c delay fuel dataSent callIdx trace =
        some ((sendChunksSpec outcomes host port delay callIdx
            (chunksOf c.toNat (data.drop dataSent))).1,
          trace.reverse ++ (sendChunksSpec outcomes host port delay callIdx
            (chunksOf c.toNat (data.drop dataSent))).2) := by
  intro fuel
  induction fuel with
  | zero =>
    intro dataSent callIdx trace hle hfuel
    omega
  | succ f ih =>
    intro dataSent callIdx trace hle hfuel
    by_cases hdone : data.length ≤ dataSent
    · have hdrop : data.drop dataSent = [] := List.drop_eq_nil_iff.mpr hdone
      rw [sendToLoop.eq_2, if_pos hdone, hdrop]
      rw [show chunksOf c.toNat ([] : List Nat) = [] from by rw [chunksOf]]
      rw [sendChunksSpec.eq_1]
      simp
    · rw [sendToLoop.eq_2, if_neg hdone]
      have hdone2 : dataSent < data.length := by omega
      rw [sendChunk_eq data dataSent c hc hdone2]
      obtain ⟨a, rest, hdrop⟩ := List.exists_cons_of_ne_nil
        (show data.drop dataSent ≠ [] by rw [Ne, List.drop_eq_nil_iff]; omega)
      rw [hdrop]
      have hlendrop : (a :: rest).length = data.length - dataSent := by
        rw [← hdrop, List.length_drop]
      have hm1 : 1 ≤ max 1 c.toNat := Nat.le_max_left 1 c.toNat
      have hge1 : 1 ≤ data.length - dataSent := by omega
      have hclen : ((a :: rest).take (max 1 c.toNat)).length =
          min (max 1 c.toNat) (data.length - dataSent) := by
        rw [List.length_take, hlendrop]
      have hA : ((a :: rest).take (max 1 c.toNat)).length ≤ data.length - dataSent := by
        rw [hclen]
        exact Nat.min_le_right _ _
      have hB : 1 ≤ ((a :: rest).take (max 1 c.toNat)).length := by
        rw [hclen]
        exact Nat.le_min.mpr ⟨hm1, hge1⟩
      have hdd : data.drop (dataSent + ((a :: rest).take (max 1 c.toNat)).length) =
          (a :: rest).drop (max 1 c.toNat) := by
        rw [← hdrop]
        exact drop_add_take_length data dataSent (max 1 c.toNat)
      rw [chunksOf_cons, sendChunksSpec.eq_2]
      by_cases hout : outcomes callIdx = true
      · rw [if_pos hout, if_pos hout]
        rw [ih (dataSent + ((a :: rest).take (max 1 c.toNat)).length) (callIdx + 1)
          (UdpEffect.sleepCall delay ::
            UdpEffect.sendCall ((a :: rest).take (max 1 c.toNat)) host port :: trace)
          (by omega) (by omega)]
        rw [hdd]
        simp [List.reverse_cons, List.append_assoc]
      · rw [if_neg hout, if_neg hout]
        simp [List.reverse_cons]

/-- C6: for chunk sizes of at least 1, `UdpSocket.send_to` splits `data`
into sequential non-empty chunks of at most `chunk_size` bytes whose
in-order concatenation is `data`, and behaves exactly like the
specification loop `sendChunksSpec`: each chunk is passed as one `sendto`
datagram addressed to `(host, port)` followed by a `time.sleep` of
`send_delay`, the first failed send returns failure immediately with no
further chunks attempted, and if every send succeeds the call returns
success. -/
theorem udp_send_to_chunks_c6 (data : List Nat) (host : String) (port : Nat) (c : Int)
    (delay : Nat) (hc : 1 ≤ c) :
    (chunksOf c.toNat data).flatten = data ∧
      (∀ ch ∈ chunksOf c.toNat data, ch ≠ [] ∧ (ch.length : Int) ≤ c) ∧
      (∀ outcomes : Nat → Bool,
        send_to outcomes data host port c delay (data.length + 1) =
          some (sendChunksSpec outcomes host port delay 0 (chunksOf c.toNat data))) := by
  refine ⟨chunksOf_flatten c.toNat data, ?_, ?_⟩
  · intro ch hch
    obtain ⟨h1, h2⟩ := chunksOf_mem c.toNat data ch hch
    refine ⟨h1, ?_⟩
    rw [show max 1 c.toNat = c.toNat by omega] at h2
    omega
  · intro outcomes
    rw [send_to, sendToLoop_eq_spec outcomes data host port c delay hc (data.length + 1) 0 0 []
      (by omega) (by omega)]
    simp

theorem udp_send_to_chunks_c6_witness :
    send_to (fun _ => true) [1, 2, 3] "h" 5 2 0 4 =
      some (sendChunksSpec (fun _ => true) "h" 5 0 0 (chunksOf 2 [1, 2, 3])) :=
  (udp_send_to_chunks_c6 [1, 2, 3] "h" 5 2 0 (by decide)).2.2 (fun _ => true)

theorem sendChunk_nonpos_length (data : List Nat) (s : Nat) (c : Int) (hc : c ≤ 0)
    (hs : s < data.length) :
    s + (sendChunk data s c).length < data.length := by
  unfold sendChunk pySlice pySliceEnd
  have hcase : ¬ ((data.length : Int) < (s : Int) + c) := by omega
  rw [if_neg hcase]
  by_cases he : (s : Int) + c < 0
  · rw [if_pos he]
    rw [if_neg (by omega : ¬ ((data.length : Int) < (data.length : Int) + ((s : Int) + c)))]
    by_cases hend : (data.length : Int) + ((s : Int) + c) ≤ (s : Int)
    · rw [if_pos hend]
      simp only [List.length_nil]
      omega
    · rw [if_neg hend]
      rw [List.length_drop, List.length_take]
      omega
  · rw [if_neg he]
    rw [if_neg hcase]
    rw [if_pos (by omega : (s : Int) + c ≤ (s : Int))]
    simp only [List.length_nil]
    omega

theorem sendToLoop_stuck (data : List Nat) (host : String) (port : Nat) (c : Int)
    (delay : Nat) (hc : c ≤ 0) :
    ∀ (fuel dataSent callIdx : Nat) (trace : List UdpEffect), dataSent < data.length →
      sendToLoop (fun _ => true) data host port c delay fuel dataSent callIdx trace = none := by
  intro fuel
  induction fuel with
  | zero =>
    intro dataSent callIdx trace hs
    rw [sendToLoop.eq_1]
  | succ f ih =>
    intro dataSent callIdx trace hs
    rw [sendToLoop.eq_2, if_neg (by omega : ¬ data.length ≤ dataSent)]
    rw [if_pos rfl]
    exact ih _ _ _ (by have := sendChunk_nonpos_length data dataSent c hc hs; omega)

/-- C10: the send loop of `UdpSocket.send_to` terminates for every `data`
whenever `chunk_size ≥ 1` (fuel `len(data) + 1` always suffices, because
every iteration sends a non-empty chunk and strictly increases the count
of bytes sent); and `chunk_size ≥ 1` is necessary: with `chunk_size ≤ 0`
and non-empty `data`, the loop reaches iterations that send an empty chunk
and make no progress, so it never terminates (it returns no result for any
amount of fuel, all sends succeeding). -/
theorem send_to_termination_c10 :
    (∀ (outcomes : Nat → Bool) (data : List Nat) (host : String) (port : Nat) (c : Int)
      (delay : Nat), 1 ≤ c →
      ∃ r, send_to outcomes data host port c delay (data.length + 1) = some r) ∧
      (∀ (data : List Nat) (host : String) (port : Nat) (c : Int) (delay : Nat),
        data ≠ [] → c ≤ 0 →
        ∀ fuel, send_to (fun _ => true) data host port c delay fuel = none) := by
  constructor
  · intro outcomes data host port c delay hc
    exact ⟨_, sendToLoop_eq_spec outcomes data host port c delay hc (data.length + 1) 0 0 []
      (by omega) (by omega)⟩
  · intro data host port c delay hd hc fuel
    exact sendToLoop_stuck data host port c delay hc fuel 0 0 []
      (List.length_pos.mpr hd)

theorem send_to_termination_c10_witness :
    (∃ r, send_to (fun _ => true) [9] "h" 5 1 0 2 = some r) ∧
      send_to (fun _ => true) [9] "h" 5 0 0 7 = none :=
  ⟨send_to_termination_c10.1 (fun _ => true) [9] "h" 5 1 0 (by decide),
   send_to_termination_c10.2 [9] "h" 5 0 0 (by decide) (by decide) 7⟩
